import Mathlib

/-!
Verification of the core orchestration runtime of the idony repository
(reasoning loop, sub-agent manager, scheduler, council engine, webhook
dispatcher), shallowly embedded in Lean 4.

Go strings are modelled as Lean `String`; byte-level index arithmetic of
the Go `strings` package is carried out on the underlying `List Char`
(the inputs exercised here are ASCII, where the two coincide).
-/

namespace Idony

/-- The set of white-space code points recognised by Go's
`unicode.IsSpace` (Latin-1 range plus the Unicode White_Space points). -/
def isGoSpace (c : Char) : Bool :=
  c = ' ' || c = '\t' || c = '\n' || c = Char.ofNat 11 || c = Char.ofNat 12 ||
  c = '\r' || c = Char.ofNat 0x85 || c = Char.ofNat 0xA0 ||
  c = Char.ofNat 0x1680 ||
  (0x2000 ≤ c.toNat && c.toNat ≤ 0x200A) ||
  c = Char.ofNat 0x2028 || c = Char.ofNat 0x2029 ||
  c = Char.ofNat 0x202F || c = Char.ofNat 0x205F || c = Char.ofNat 0x3000

/-- Model of Go `strings.TrimSpace(s) == ""`: every character is white space. -/
def trimSpaceIsEmpty (s : String) : Bool :=
  s.data.all isGoSpace

/-- Model of Go `strings.TrimSpace`. -/
def goTrimSpace (s : String) : String :=
  String.mk (((s.data.dropWhile isGoSpace).reverse.dropWhile isGoSpace).reverse)

/-- Model of Go `strings.Index(s, pat)`: the smallest index at which `pat`
occurs in `s`, `none` standing for Go's `-1`. -/
def goIndex (s pat : List Char) : Option Nat :=
  (List.range (s.length + 1)).find? (fun i => pat.isPrefixOf (s.drop i))

/-- Model of Go `strings.LastIndex(s, pat)`: the largest index at which
`pat` occurs in `s`, `none` standing for Go's `-1`. -/
def goLastIndex (s pat : List Char) : Option Nat :=
  ((List.range (s.length + 1)).reverse).find? (fun i => pat.isPrefixOf (s.drop i))

/-- Go slice `s[a:b]` on the character list (the call sites below only
reach it with `a ≤ b ≤ length`, where it agrees with Go). -/
def goSlice (s : List Char) (a b : Nat) : List Char :=
  (s.drop a).take (b - a)

/-- The `{` character (written via its code point to keep it out of
string-literal positions). -/
def lbraceChar : Char := Char.ofNat 123

/-- The `}` character. -/
def rbraceChar : Char := Char.ofNat 125

/-- Embedding of `Agent.extractJSON` (src/internal/agent/agent.go):
first a `<json>…</json>` block if present, else the substring from the
first `{` to the last `}`, else the whole string. -/
def extractJSON (s : String) : String :=
  let cs := s.data
  let fallback :=
    match goIndex cs [lbraceChar], goLastIndex cs [rbraceChar] with
    | some st, some en => if en > st then String.mk (goSlice cs st (en + 1)) else s
    | _, _ => s
  match goIndex cs "<json>".data with
  | some st =>
    match goIndex (cs.drop st) "</json>".data with
    | some e => String.mk (goSlice cs (st + 6) (st + e))
    | none => fallback
  | none => fallback

/-- Left-to-right non-overlapping replacement on character lists, the
semantics of Go `strings.Replace` with an unlimited count and a
non-empty pattern.  The `fuel` argument (instantiated with the input
length, which every step strictly decreases) only makes the recursion
structural, so that the kernel can evaluate it. -/
def replaceAllCore (old new : List Char) : Nat → List Char → List Char
  | _, [] => []
  | 0, s => s
  | fuel + 1, c :: rest =>
    if old.isPrefixOf (c :: rest) ∧ old ≠ [] then
      new ++ replaceAllCore old new fuel ((c :: rest).drop old.length)
    else
      c :: replaceAllCore old new fuel rest

/-- Model of Go `strings.ReplaceAll(s, old, new)`; the only call site in
the modelled code passes the non-empty constant pattern for the payload
placeholder, so the empty-pattern case of Go is not needed. -/
def goReplaceAll (s old new : String) : String :=
  if old.data = [] then s
  else String.mk (replaceAllCore old.data new.data s.data.length s.data)

/-- `ThoughtProcess` (src/internal/agent/agent.go): the structured
reasoning format expected from the LLM.  `input` carries the raw text of
the Go `json.RawMessage`. -/
structure ThoughtProcess where
  thought : String
  tool : String
  input : String
  final : String
deriving DecidableEq

/-- The zero value of `ThoughtProcess`, as Go leaves absent fields. -/
def emptyTP : ThoughtProcess := ⟨"", "", "", ""⟩

/-- JSON insignificant white space. -/
def jsonWs (cs : List Char) : List Char :=
  cs.dropWhile (fun c => c = ' ' || c = '\t' || c = '\n' || c = '\r')

/-- One escape character inside a JSON string literal (the common
single-character escapes; `\u` sequences are outside the modelled
fragment). -/
def escChar (c : Char) : Option Char :=
  if c = '"' then some '"'
  else if c = '\\' then some '\\'
  else if c = '/' then some '/'
  else if c = 'n' then some '\n'
  else if c = 't' then some '\t'
  else if c = 'r' then some '\r'
  else if c = 'b' then some (Char.ofNat 8)
  else if c = 'f' then some (Char.ofNat 12)
  else none

/-- Scan the body of a JSON string literal after the opening quote,
returning the decoded content and the rest of the input. -/
def strLitCore (acc : List Char) : List Char → Option (String × List Char)
  | [] => none
  | c :: rest =>
    if c = '"' then some (String.mk acc.reverse, rest)
    else if c = '\\' then
      match rest with
      | [] => none
      | e :: rest2 =>
        match escChar e with
        | some d => strLitCore (d :: acc) rest2
        | none => none
    else strLitCore (c :: acc) rest

/-- A JSON string literal, opening quote included. -/
def parseStringLit : List Char → Option (String × List Char)
  | c :: rest => if c = '"' then strLitCore [] rest else none
  | [] => none

/-- The members of a flat JSON object, entered just after the opening
brace (or after a comma); fuelled by the input length. -/
def parseMembers : Nat → List Char → List (String × String) →
    Option (List (String × String) × List Char)
  | 0, _, _ => none
  | fuel + 1, cs, acc =>
    match parseStringLit (jsonWs cs) with
    | none => none
    | some (k, cs1) =>
      match jsonWs cs1 with
      | c :: cs2 =>
        if c = ':' then
          match parseStringLit (jsonWs cs2) with
          | none => none
          | some (v, cs3) =>
            match jsonWs cs3 with
            | d :: cs4 =>
              if d = ',' then parseMembers fuel cs4 ((k, v) :: acc)
              else if d = rbraceChar then some (((k, v) :: acc).reverse, cs4)
              else none
            | [] => none
        else none
      | [] => none

/-- Assign one parsed member to its field; unknown keys are ignored, as
Go's `encoding/json` does. -/
def setField (tp : ThoughtProcess) (k v : String) : ThoughtProcess :=
  if k = "thought" then { tp with thought := v }
  else if k = "tool" then { tp with tool := v }
  else if k = "input" then { tp with input := v }
  else if k = "final" then { tp with final := v }
  else tp

/-- Model of Go `json.Unmarshal([]byte(s), &tp)` for `ThoughtProcess`,
restricted to flat objects whose values are JSON string literals with
exact lower-case keys; every other input is a parse error (`none`).
(Go's `Unmarshal` itself errors on non-string values for the three
string-typed fields; a nested value in the `RawMessage` field and
case-insensitive key matching are outside the modelled fragment.) -/
def parseTP (s : String) : Option ThoughtProcess :=
  match jsonWs s.data with
  | c :: cs1 =>
    if c = lbraceChar then
      match jsonWs cs1 with
      | d :: cs2 =>
        if d = rbraceChar then
          if jsonWs cs2 = [] then some emptyTP else none
        else
          match parseMembers (cs1.length + 1) cs1 [] with
          | some (kvs, rest) =>
            if jsonWs rest = [] then
              some (kvs.foldl (fun tp kv => setField tp kv.1 kv.2) emptyTP)
            else none
          | none => none
      | [] => none
    else none
  | [] => none

/-- `llm.Message` (src/internal/llm): one chat message with optional
base64 images. -/
structure LlmMessage where
  role : String
  content : String
  images : List String
deriving DecidableEq

/-- The mutable data of an `Agent` (src/internal/agent/agent.go) that the
reasoning loop touches, together with the durable message log `log`
standing for the `messages` table reached through `store.SaveMessage`.
`hasStore` is false for the fresh sub-agent and council agents built with
`store: nil`. -/
structure AgentSt where
  history : List LlmMessage
  log : List (String × String)
  lastUserImages : List String
  tools : List String
  hasStore : Bool
deriving DecidableEq

/-- `store.SaveMessage(role, content)` guarded by the `store != nil`
check of the source. -/
def saveMessage (st : AgentSt) (role content : String) : AgentSt :=
  if st.hasStore then { st with log := st.log ++ [(role, content)] } else st

/-- The diagnostic literal returned on an empty model response
(src/internal/agent/agent.go, internalLoop). -/
def emptyRespMsg : String :=
  "Error: The model returned an empty response. It may be too small for this task or experiencing an error."

/-- The common final-answer path of `internalLoop`: append the assistant
message to in-memory history, persist it when a store is attached. -/
def emitFinal (st : AgentSt) (c : String) : AgentSt :=
  saveMessage { st with history := st.history ++ [⟨"assistant", c, []⟩] } "assistant" c

/-- Outcome of one iteration of `internalLoop`. -/
inductive StepOut where
  | done (answer : String) (st : AgentSt)
  | next (st : AgentSt)
deriving DecidableEq

/-- One iteration of `internalLoop` (src/internal/agent/agent.go,
lines 135–212) on a successful model response `raw`; `tres` is the
result of the tool invocation, consulted only on the known-tool branch. -/
def loopStep (st : AgentSt) (raw : String) (tres : Except String String) : StepOut :=
  if trimSpaceIsEmpty raw then StepOut.done emptyRespMsg st
  else
    match parseTP (extractJSON raw) with
    | none => StepOut.done raw (emitFinal st raw)
    | some tp =>
      if tp.final = "" ∧ tp.tool = "" ∧ tp.thought = "" then
        StepOut.done raw (emitFinal st raw)
      else if tp.final ≠ "" then
        StepOut.done tp.final (emitFinal st tp.final)
      else if tp.tool ≠ "" then
        if tp.tool ∈ st.tools then
          let result := match tres with
            | Except.ok r => r
            | Except.error e => "Tool error: " ++ e
          StepOut.next
            { st with history := st.history ++ [⟨"assistant", "Observation: " ++ result, []⟩] }
        else
          StepOut.next
            { st with history :=
                st.history ++ [⟨"assistant", "Error: Tool '" ++ tp.tool ++ "' not found.", []⟩] }
      else StepOut.done raw (emitFinal st raw)

/-- The iteration of `internalLoop`, driven by the sequence `outs` of
model responses and `tres` of tool results; `i` is the index of the
current iteration and `fuel` the number of iterations still allowed.
`none` means the loop has not returned within `fuel` iterations. -/
def runLoop (outs : Nat → String) (tres : Nat → Except String String) :
    Nat → Nat → AgentSt → Option (String × AgentSt)
  | _, 0, _ => none
  | i, fuel + 1, st =>
    match loopStep st (outs i) (tres i) with
    | StepOut.done a st' => some (a, st')
    | StepOut.next st' => runLoop outs tres (i + 1) fuel st'

/-- The prologue of `Agent.Run`: clear `lastUserImages`, append the user
message to history, persist it. -/
def runPrologue (st : AgentSt) (userInput : String) : AgentSt :=
  saveMessage
    { st with
      lastUserImages := []
      history := st.history ++ [⟨"user", userInput, []⟩] }
    "user" userInput

/-- `Agent.Run` within `fuel` iterations of the loop. -/
def runAgent (st : AgentSt) (userInput : String) (outs : Nat → String)
    (tres : Nat → Except String String) (fuel : Nat) : Option (String × AgentSt) :=
  runLoop outs tres 0 fuel (runPrologue st userInput)

/-- The prologue of `Agent.RunVision`: cache the supplied images, append
the user message carrying them, persist the tagged content. -/
def runVisionPrologue (st : AgentSt) (userInput : String) (b64Images : List String) : AgentSt :=
  saveMessage
    { st with
      lastUserImages := b64Images
      history := st.history ++ [⟨"user", userInput, b64Images⟩] }
    "user" ("[Image Attached] " ++ userInput)

/-- `Agent.RunVision` within `fuel` iterations of the loop. -/
def runVisionAgent (st : AgentSt) (userInput : String) (b64Images : List String)
    (outs : Nat → String) (tres : Nat → Except String String) (fuel : Nat) :
    Option (String × AgentSt) :=
  runLoop outs tres 0 fuel (runVisionPrologue st userInput b64Images)

/-- A model response on which `internalLoop` continues to the next
iteration: non-blank, parses, no final answer, a tool requested. -/
def isContinuationOut (raw : String) : Bool :=
  !trimSpaceIsEmpty raw &&
  match parseTP (extractJSON raw) with
  | some tp => tp.final == "" && tp.tool != ""
  | none => false

/-! ## Scheduler (src/unnamed/part_002) -/

/-- `db.ScheduledTask` (src/internal/db/db.go).  `lastRun` holds an
abstract timestamp; `none` is the SQL NULL of a never-fired job. -/
structure ScheduledTask where
  id : Int
  type : String
  schedule : String
  prompt : String
  targetType : String
  targetName : String
  lastRun : Option Int
deriving DecidableEq

/-- The `scheduled_tasks` table. -/
structure SchedStore where
  tasks : List ScheduledTask
deriving DecidableEq

/-- `Store.UpdateTaskLastRun(id)`: stamp `last_run` on every row with the
id (`now` standing for CURRENT_TIMESTAMP). -/
def updateTaskLastRun (s : SchedStore) (id : Int) (now : Int) : SchedStore :=
  ⟨s.tasks.map (fun t => if t.id = id then { t with lastRun := some now } else t)⟩

/-- `Store.DeleteTask(id)`. -/
def deleteTask (s : SchedStore) (id : Int) : SchedStore :=
  ⟨s.tasks.filter (fun t => t.id ≠ id)⟩

/-- `Scheduler.executeTask` (src/unnamed/part_002, lines 75–101) restricted
to its effect on the `scheduled_tasks` table.  `dispatchErr` is the error
returned by the dispatch sink (`SpawnNamed`, `RunCouncilSession` or
`agent.Run`); on an error the function logs and returns at once. -/
def executeTask (s : SchedStore) (task : ScheduledTask) (dispatchErr : Option String)
    (now : Int) : SchedStore :=
  match dispatchErr with
  | some _ => s
  | none =>
    let s := updateTaskLastRun s task.id now
    if task.type = "one-shot" then deleteTask s task.id else s

/-- One registration held by the cron engine: `cron.AddFunc` appends one
entry per call, each closing over its task. -/
structure CronEntry where
  schedule : String
  taskId : Int
deriving DecidableEq

/-- `Scheduler.schedule` (src/unnamed/part_002, lines 48–73) restricted to
the cron registrations it creates; `valid` models the cron parser
accepting the expression (an invalid one is logged and dropped).  The
one-shot branch arms a timer and registers nothing with cron. -/
def scheduleRegs (valid : String → Bool) (entries : List CronEntry)
    (task : ScheduledTask) : List CronEntry :=
  if task.type = "recurring" then
    if valid task.schedule then entries ++ [⟨task.schedule, task.id⟩] else entries
  else entries

/-- `Scheduler.loadAndScheduleTasks`: register every persisted task. -/
def loadAndScheduleRegs (valid : String → Bool) (entries : List CronEntry)
    (tasks : List ScheduledTask) : List CronEntry :=
  tasks.foldl (scheduleRegs valid) entries

/-- `Scheduler.Start`: start from an empty engine and register all rows. -/
def startSchedulerRegs (valid : String → Bool) (s : SchedStore) : List CronEntry :=
  loadAndScheduleRegs valid [] s.tasks

/-- `Scheduler.AddTask` (src/unnamed/part_002, lines 103–112): persist the
new row, then reload and re-register every row on top of the existing
engine registrations. -/
def addTaskRegs (valid : String → Bool) (entries : List CronEntry) (s : SchedStore)
    (newTask : ScheduledTask) : List CronEntry × SchedStore :=
  let s' : SchedStore := ⟨s.tasks ++ [newTask]⟩
  (loadAndScheduleRegs valid entries s'.tasks, s')

/-- How many times the job `id` fires at a calendar instant whose match
predicate on cron expressions is `hits`: the cron engine fires each
registered entry whose expression matches, once per entry. -/
def firesAt (hits : String → Bool) (entries : List CronEntry) (id : Int) : Nat :=
  (entries.filter (fun e => e.taskId = id ∧ hits e.schedule)).length

/-! ## Sub-agent store operations (src/internal/db/db.go) -/

/-- One row of the `sub_agents` table (`db.SubAgentTask`). -/
structure TaskRunRow where
  id : String
  prompt : String
  status : String
  progress : Int
  result : String
  model : String
  personality : String
  finishedAt : Option Int
deriving DecidableEq

/-- The `sub_agents` table. -/
abbrev SubAgentsTable := List TaskRunRow

/-- `Store.SaveSubAgent` (db.go line 440): plain INSERT with
`progress = 0` and NULL `finished_at`; `id` is the primary key, so the
statement errors and changes nothing when the id already exists. -/
def saveSubAgent (tbl : SubAgentsTable) (id prompt status model personality : String) :
    SubAgentsTable :=
  if tbl.any (fun r => r.id = id) then tbl
  else tbl ++ [⟨id, prompt, status, 0, "", model, personality, none⟩]

/-- `Store.UpdateSubAgentProgress` (db.go line 445). -/
def updateSubAgentProgress (tbl : SubAgentsTable) (id : String) (progress : Int) :
    SubAgentsTable :=
  tbl.map (fun r => if r.id = id then { r with progress := progress } else r)

/-- `Store.UpdateSubAgent` (db.go line 450): the terminal write setting
status, result, `progress = 100` and `finished_at` in one statement. -/
def updateSubAgent (tbl : SubAgentsTable) (id status result : String) (now : Int) :
    SubAgentsTable :=
  tbl.map (fun r =>
    if r.id = id then
      { r with status := status, result := result, progress := 100, finishedAt := some now }
    else r)

/-- The store operations on `sub_agents` as the code issues them:
`SaveSubAgent` is always called with status `"running"`
(manager.go lines 34 and 56, council.go line 53); `UpdateSubAgent` is the
terminal write of `runSubAgent` (manager.go line 119) or of
`executeCouncilSession` (council.go line 109). -/
inductive SubAgentOp where
  | save (id prompt model personality : String)
  | progress (id : String) (p : Int)
  | finish (id status result : String) (now : Int)
deriving DecidableEq

/-- The statuses `runSubAgent` and `executeCouncilSession` pass to the
terminal write: `"completed"` or `"failed"`, never `"running"`. -/
def opOk : SubAgentOp → Prop
  | SubAgentOp.finish _ s _ _ => s = "completed" ∨ s = "failed"
  | _ => True

instance : DecidablePred opOk := fun op => by
  cases op <;> simp only [opOk] <;> infer_instance

/-- Apply one operation to the table. -/
def applyOp (tbl : SubAgentsTable) : SubAgentOp → SubAgentsTable
  | SubAgentOp.save id prompt model personality => saveSubAgent tbl id prompt "running" model personality
  | SubAgentOp.progress id p => updateSubAgentProgress tbl id p
  | SubAgentOp.finish id status result now => updateSubAgent tbl id status result now

/-- Apply a sequence of operations. -/
def applyOps (tbl : SubAgentsTable) (ops : List SubAgentOp) : SubAgentsTable :=
  ops.foldl applyOp tbl

/-- The row invariant of the claim: `finished_at` is set iff the status
is not `running`. -/
def rowInv (r : TaskRunRow) : Prop :=
  r.finishedAt.isSome = true ↔ r.status ≠ "running"

/-- A terminal row. -/
def terminalRow (r : TaskRunRow) : Prop :=
  r.status = "completed" ∨ r.status = "failed"

/-! ## Sub-agent manager (src/internal/agent/manager.go) -/

/-- The tool names installed on a sub-agent spawned through `SpawnNamed`
(manager.go lines 61–74): a comma-separated declaration other than `"*"`
or `""` keeps exactly the declared, space-trimmed names that exist in the
manager's full set; otherwise the full set is inherited. -/
def filterTools (declared : String) (available : List String) : List String :=
  if declared ≠ "" ∧ declared ≠ "*" then
    ((declared.splitOn ",").map goTrimSpace).filter (fun tn => tn ∈ available)
  else available

/-! ## Webhook dispatcher (src/internal/server/server.go) -/

/-- `db.Webhook` (src/internal/db/memory.go). -/
structure Webhook where
  id : String
  name : String
  targetAgent : String
  promptTemplate : String
deriving DecidableEq

/-- The background dispatch launched by the webhook handler. -/
inductive Dispatch where
  | mainRun (prompt : String)
  | spawnNamed (agent : String) (prompt : String)
deriving DecidableEq

/-- HTTP status plus the dispatch the handler starts (if any). -/
structure WebhookResp where
  status : Nat
  dispatch : Option Dispatch
deriving DecidableEq

/-- The literal placeholder substituted by the handler. -/
def payloadToken : String := "\x7b\x7bpayload\x7d\x7d"

/-- `Server.handleWebhook` (server.go lines 92–123).  `lookup` models
`Store.GetWebhook`; the handler treats a lookup error and a missing row
alike (404). -/
def handleWebhook (lookup : String → Option Webhook) (id body : String) : WebhookResp :=
  if id = "" then ⟨400, none⟩
  else
    match lookup id with
    | none => ⟨404, none⟩
    | some hook =>
      let prompt := goReplaceAll hook.promptTemplate payloadToken body
      if hook.targetAgent = "main" then ⟨200, some (Dispatch.mainRun prompt)⟩
      else ⟨200, some (Dispatch.spawnNamed hook.targetAgent prompt)⟩

/-! ## Council engine (src/internal/agent/council.go) -/

/-- The member order of a two-round session: round 1 then round 2, each in
declared member order. -/
def councilOrder (members : List String) : List String :=
  members ++ members

/-- The contribution lines accumulated by `executeCouncilSession`:
turn `k` of the flattened order contributes `"[<member>]: <response>"`
when `turns k` is a response, and nothing when the turn errored or timed
out (the loop logs and continues). -/
def councilLines (members : List String) (turns : Nat → Option String) : List String :=
  (List.range (councilOrder members).length).filterMap
    (fun k => (turns k).map (fun resp => "[" ++ (councilOrder members).getD k "" ++ "]: " ++ resp))

/-- The transcript: the problem line followed by the contributions. -/
def councilTranscript (members : List String) (problem : String)
    (turns : Nat → Option String) : List String :=
  ("Council Problem: " ++ problem) :: councilLines members turns

/-- The session result: the transcript joined by the separator line. -/
def councilResult (members : List String) (problem : String)
    (turns : Nat → Option String) : String :=
  String.intercalate "\n\n---\n\n" (councilTranscript members problem turns)

/-- The progress value written before turn of `round` (1-based) in a
session of `n` members: `(round-1)*100/2 + 100/(2*n)` with Go integer
division (council.go line 73). -/
def councilProgress (round n : Nat) : Int :=
  ((round - 1) * 100 / 2 : Nat) + ((100 / (2 * n) : Nat) : Int)

/-- `executeCouncilSession` (council.go lines 63–111) restricted to its
effect on the `sub_agents` table: a progress write before every turn,
then the single terminal write with status `"completed"` and the joined
transcript. -/
def executeCouncilSession (tbl : SubAgentsTable) (id : String) (members : List String)
    (problem : String) (turns : Nat → Option String) (now : Int) : SubAgentsTable :=
  let n := members.length
  let tbl := (List.range (councilOrder members).length).foldl
    (fun acc k => updateSubAgentProgress acc id (councilProgress (k / n + 1) n)) tbl
  updateSubAgent tbl id "completed" (councilResult members problem turns) now

/-! ## Helper lemmas about the reasoning loop -/

/-- `saveMessage` touches only the log. -/
theorem saveMessage_fields (st : AgentSt) (role content : String) :
    (saveMessage st role content).history = st.history ∧
    (saveMessage st role content).lastUserImages = st.lastUserImages ∧
    (saveMessage st role content).tools = st.tools ∧
    (saveMessage st role content).hasStore = st.hasStore ∧
    (saveMessage st role content).log =
      (if st.hasStore then st.log ++ [(role, content)] else st.log) := by
  unfold saveMessage
  split <;> simp_all

/-- Field-level description of the final-answer path. -/
theorem emitFinal_spec (st : AgentSt) (c : String) :
    (emitFinal st c).history = st.history ++ [⟨"assistant", c, []⟩] ∧
    (emitFinal st c).lastUserImages = st.lastUserImages ∧
    (emitFinal st c).tools = st.tools ∧
    (emitFinal st c).hasStore = st.hasStore ∧
    (emitFinal st c).log =
      (if st.hasStore then st.log ++ [("assistant", c)] else st.log) := by
  unfold emitFinal saveMessage
  split <;> simp_all

/-- Every iteration of the loop either continues — exactly when the model
output is a continuation output, leaving log, cached images, tool set and
store flag untouched — or returns, via the blank-response diagnostic or
the final-answer path. -/
theorem loopStep_cases (st : AgentSt) (raw : String) (tres : Except String String) :
    (isContinuationOut raw = true ∧ ∃ st', loopStep st raw tres = StepOut.next st' ∧
        st'.log = st.log ∧ st'.lastUserImages = st.lastUserImages ∧
        st'.tools = st.tools ∧ st'.hasStore = st.hasStore) ∨
    (isContinuationOut raw = false ∧
      (loopStep st raw tres = StepOut.done emptyRespMsg st ∨
        ∃ a, loopStep st raw tres = StepOut.done a (emitFinal st a))) := by
  unfold loopStep isContinuationOut
  by_cases htrim : trimSpaceIsEmpty raw = true
  · right
    simp [htrim]
  · rw [Bool.not_eq_true] at htrim
    rcases hp : parseTP (extractJSON raw) with _ | tp
    · right
      simp [htrim, hp]
    · by_cases h1 : tp.final = "" ∧ tp.tool = "" ∧ tp.thought = ""
      · right
        simp [htrim, hp, h1, h1.1, h1.2.1]
      · by_cases h2 : tp.final = ""
        · by_cases h3 : tp.tool = ""
          · right
            refine ⟨by simp [htrim, hp, h2, h3], ?_⟩
            right
            exact ⟨raw, by simp [htrim, hp, h1, h2, h3]⟩
          · left
            refine ⟨by simp [htrim, hp, h2, h3], ?_⟩
            by_cases h4 : tp.tool ∈ st.tools
            · exact ⟨{ st with history := st.history ++
                  [⟨"assistant", "Observation: " ++ (match tres with
                    | Except.ok r => r
                    | Except.error e => "Tool error: " ++ e), []⟩] },
                by simp [htrim, hp, h1, h2, h3, h4], rfl, rfl, rfl, rfl⟩
            · exact ⟨{ st with history := st.history ++
                  [⟨"assistant", "Error: Tool '" ++ tp.tool ++ "' not found.", []⟩] },
                by simp [htrim, hp, h1, h2, h3, h4], rfl, rfl, rfl, rfl⟩
        · right
          refine ⟨by simp [htrim, hp, h2], ?_⟩
          right
          exact ⟨tp.final, by simp [htrim, hp, h1, h2]⟩

/-- Unfolding equation: exhausted fuel. -/
theorem runLoop_zero (outs : Nat → String) (tres : Nat → Except String String)
    (i : Nat) (st : AgentSt) : runLoop outs tres i 0 st = none := rfl

/-- Unfolding equation: one more iteration. -/
theorem runLoop_succ (outs : Nat → String) (tres : Nat → Except String String)
    (i fuel : Nat) (st : AgentSt) :
    runLoop outs tres i (fuel + 1) st =
      (match loopStep st (outs i) (tres i) with
        | StepOut.done a st' => some (a, st')
        | StepOut.next st' => runLoop outs tres (i + 1) fuel st') := rfl

/-- The loop returns within `fuel` iterations from index `i` exactly when
one of the next `fuel` model outputs is not a continuation output. -/
theorem runLoop_isSome_iff (outs : Nat → String) (tres : Nat → Except String String) :
    ∀ (fuel i : Nat) (st : AgentSt),
      (runLoop outs tres i fuel st).isSome = true ↔
        ∃ k, k < fuel ∧ isContinuationOut (outs (i + k)) = false := by
  intro fuel
  induction fuel with
  | zero => intro i st; simp [runLoop_zero]
  | succ n ih =>
    intro i st
    rcases loopStep_cases st (outs i) (tres i) with ⟨hc, st', hstep, -⟩ | ⟨hc, hdone⟩
    · rw [runLoop_succ, hstep]
      constructor
      · intro h
        obtain ⟨k, hk, hkc⟩ := (ih (i + 1) st').mp h
        exact ⟨k + 1, by omega, by rw [show i + (k + 1) = i + 1 + k by omega]; exact hkc⟩
      · rintro ⟨k, hk, hkc⟩
        cases k with
        | zero =>
          rw [Nat.add_zero] at hkc
          rw [hkc] at hc
          exact absurd hc (by simp)
        | succ k =>
          exact (ih (i + 1) st').mpr
            ⟨k, by omega, by rw [show i + 1 + k = i + (k + 1) by omega]; exact hkc⟩
    · rcases hdone with h | ⟨a, h⟩ <;>
      · rw [runLoop_succ, h]
        simp only [Option.isSome_some, true_iff]
        exact ⟨0, by omega, by simpa using hc⟩

/-! ## C1 -/

/-- The initial agent state of the main conversation used in concrete
scenarios: empty history and log, no cached images, no registered tools,
a store attached. -/
def st0 : AgentSt := ⟨[], [], [], [], true⟩

/-- A model output that requests a tool on every iteration. -/
def toolLoopRaw : String := "\x7b\"tool\":\"x\"\x7d"

/-- Claim C1 as stated: some fixed constant `K ≥ 8` bounds the number of
think–act–observe iterations of every `Run`, regardless of the model
outputs. -/
def boundedRunClaim : Prop :=
  ∃ K, 8 ≤ K ∧ ∀ (outs : Nat → String) (tres : Nat → Except String String)
    (st : AgentSt) (input : String), (runAgent st input outs tres K).isSome = true

/-- C1, as stated, is false: no constant bounds the iteration count —
a model that answers every iteration with a tool request keeps
`internalLoop` (an unconditional `for` loop) from ever returning. -/
theorem C1_counterexample : ¬ boundedRunClaim := by
  rintro ⟨K, hK, hall⟩
  have h := hall (fun _ => toolLoopRaw) (fun _ => Except.ok "") st0 "hi"
  unfold runAgent at h
  obtain ⟨k, -, hkc⟩ := (runLoop_isSome_iff _ _ K 0 _).mp h
  have : isContinuationOut toolLoopRaw = true := by rfl
  rw [this] at hkc
  exact absurd hkc (by simp)

/-- C1 amended: `internalLoop` has no fixed iteration bound; a call to
`Run` returns within `fuel` iterations exactly when one of the first
`fuel` model outputs is terminal (blank, unparseable, all fields empty,
a non-empty `final`, or no tool request), so a model output stream that
always requests a tool keeps the loop running forever. -/
theorem C1_theorem (st : AgentSt) (input : String) (outs : Nat → String)
    (tres : Nat → Except String String) (fuel : Nat) :
    (runAgent st input outs tres fuel).isSome = true ↔
      ∃ k, k < fuel ∧ isContinuationOut (outs k) = false := by
  unfold runAgent
  simpa using runLoop_isSome_iff outs tres fuel 0 (runPrologue st input)

/-- A returning iteration either is the blank-response diagnostic
(leaving the state untouched) or went through the final-answer path. -/
theorem loopStep_done_cases (st : AgentSt) (raw : String) (tres : Except String String)
    (a : String) (st' : AgentSt) (h : loopStep st raw tres = StepOut.done a st') :
    (st' = st ∧ a = emptyRespMsg) ∨ st' = emitFinal st a := by
  rcases loopStep_cases st raw tres with ⟨-, st'', hstep, -⟩ | ⟨-, hd | ⟨a', hd⟩⟩
  · rw [h] at hstep
    exact absurd hstep (by simp)
  · rw [h] at hd
    injection hd with h1 h2
    exact Or.inl ⟨h2, h1⟩
  · rw [h] at hd
    injection hd with h1 h2
    subst h1
    exact Or.inr h2

/-- Field-level description of the `Run` prologue. -/
theorem runPrologue_spec (st : AgentSt) (input : String) :
    (runPrologue st input).log =
      (if st.hasStore then st.log ++ [("user", input)] else st.log) ∧
    (runPrologue st input).history = st.history ++ [⟨"user", input, []⟩] ∧
    (runPrologue st input).lastUserImages = [] ∧
    (runPrologue st input).tools = st.tools ∧
    (runPrologue st input).hasStore = st.hasStore := by
  unfold runPrologue saveMessage
  split <;> simp_all

/-- Field-level description of the `RunVision` prologue. -/
theorem runVisionPrologue_spec (st : AgentSt) (input : String) (imgs : List String) :
    (runVisionPrologue st input imgs).log =
      (if st.hasStore then st.log ++ [("user", "[Image Attached] " ++ input)] else st.log) ∧
    (runVisionPrologue st input imgs).history = st.history ++ [⟨"user", input, imgs⟩] ∧
    (runVisionPrologue st input imgs).lastUserImages = imgs ∧
    (runVisionPrologue st input imgs).tools = st.tools ∧
    (runVisionPrologue st input imgs).hasStore = st.hasStore := by
  unfold runVisionPrologue saveMessage
  split <;> simp_all

/-- A completed loop either appended exactly the assistant row carrying
its answer to the durable log, or completed through the blank-response
diagnostic and appended nothing. -/
theorem runLoop_log (outs : Nat → String) (tres : Nat → Except String String) :
    ∀ (fuel i : Nat) (st : AgentSt) (a : String) (st' : AgentSt),
      st.hasStore = true → runLoop outs tres i fuel st = some (a, st') →
      st'.log = st.log ++ [("assistant", a)] ∨ (st'.log = st.log ∧ a = emptyRespMsg) := by
  intro fuel
  induction fuel with
  | zero => intro i st a st' _ h; rw [runLoop_zero] at h; cases h
  | succ n ih =>
    intro i st a st' hs h
    rw [runLoop_succ] at h
    rcases loopStep_cases st (outs i) (tres i) with ⟨-, s₂, hstep, hlog, -, -, hstore⟩ | ⟨-, hd | ⟨a', hd⟩⟩
    · rw [hstep] at h
      have := ih (i + 1) s₂ a st' (by rw [hstore]; exact hs) h
      rw [hlog] at this
      exact this
    · rw [hd] at h
      injection h with h'
      injection h' with h1 h2
      subst h1; subst h2
      exact Or.inr ⟨rfl, rfl⟩
    · rw [hd] at h
      injection h with h'
      injection h' with h1 h2
      subst h1; subst h2
      left
      have := (emitFinal_spec st a').2.2.2.2
      rw [hs] at this
      simpa using this

/-- The loop never touches the cached user images. -/
theorem runLoop_images (outs : Nat → String) (tres : Nat → Except String String) :
    ∀ (fuel i : Nat) (st : AgentSt) (a : String) (st' : AgentSt),
      runLoop outs tres i fuel st = some (a, st') →
      st'.lastUserImages = st.lastUserImages := by
  intro fuel
  induction fuel with
  | zero => intro i st a st' h; rw [runLoop_zero] at h; cases h
  | succ n ih =>
    intro i st a st' h
    rw [runLoop_succ] at h
    rcases loopStep_cases st (outs i) (tres i) with ⟨-, s₂, hstep, -, himg, -, -⟩ | ⟨-, hd | ⟨a', hd⟩⟩
    · rw [hstep] at h
      exact (ih (i + 1) s₂ a st' h).trans himg
    · rw [hd] at h
      injection h with h'
      injection h' with h1 h2
      subst h1; subst h2
      rfl
    · rw [hd] at h
      injection h with h'
      injection h' with h1 h2
      subst h1; subst h2
      exact (emitFinal_spec st a').2.1

/-! ## C4 -/

/-- C4, as stated, fails at the raw output `""`: its extraction parses to
nothing, yet `Run` returns the blank-response diagnostic — not the raw
output — and appends nothing to history or the durable log. -/
theorem C4_counterexample :
    parseTP (extractJSON "") = none ∧
    runAgent st0 "hi" (fun _ => "") (fun _ => Except.ok "") 1 =
      some (emptyRespMsg, runPrologue st0 "hi") ∧
    (runPrologue st0 "hi").history = [⟨"user", "hi", []⟩] ∧
    (runPrologue st0 "hi").log = [("user", "hi")] ∧
    emptyRespMsg ≠ "" :=
  ⟨rfl, rfl, rfl, rfl, by decide⟩

/-- C4 amended: when the raw model output is not blank and its extracted
candidate fails to parse or parses with every field empty, the iteration
returns the raw output as the final answer, appends it to in-memory
history as an assistant message, and persists it to the durable log
(when a store is attached). -/
theorem C4_theorem (st : AgentSt) (raw : String) (tres : Except String String)
    (h1 : trimSpaceIsEmpty raw = false)
    (h2 : parseTP (extractJSON raw) = none ∨ parseTP (extractJSON raw) = some emptyTP) :
    loopStep st raw tres = StepOut.done raw (emitFinal st raw) ∧
    (emitFinal st raw).history = st.history ++ [⟨"assistant", raw, []⟩] ∧
    (st.hasStore = true → (emitFinal st raw).log = st.log ++ [("assistant", raw)]) := by
  refine ⟨?_, (emitFinal_spec st raw).1, ?_⟩
  · unfold loopStep
    rcases h2 with h2 | h2 <;> simp [h1, h2, emptyTP]
  · intro hs
    have := (emitFinal_spec st raw).2.2.2.2
    rw [hs] at this
    simpa using this

/-- Witness: a plain-text model output falls into the parse-failure case
and is returned as the final answer. -/
theorem C4_witness :
    trimSpaceIsEmpty "this is just text" = false ∧
    parseTP (extractJSON "this is just text") = none ∧
    loopStep st0 "this is just text" (Except.ok "") =
      StepOut.done "this is just text" (emitFinal st0 "this is just text") :=
  ⟨rfl, rfl, (C4_theorem st0 "this is just text" (Except.ok "") rfl (Or.inl rfl)).1⟩

/-! ## C5 -/

/-- C5, as stated, fails on an empty model response: the run completes
(no error), but the durable log grew by the user row alone — no
assistant row was persisted for the diagnostic answer. -/
theorem C5_counterexample :
    runAgent st0 "hi" (fun _ => "") (fun _ => Except.ok "") 1 =
      some (emptyRespMsg, runPrologue st0 "hi") ∧
    (runPrologue st0 "hi").log = [("user", "hi")] ∧
    (runPrologue st0 "hi").log ≠ [("user", "hi"), ("assistant", emptyRespMsg)] :=
  ⟨rfl, rfl, by decide⟩

/-- C5 amended: a completed `Run` on a store-backed agent grows the
durable log by exactly the user row and one assistant row holding the
final answer — tool observations are never persisted — except when the
run completes through the blank-response diagnostic, which adds the user
row alone. -/
theorem C5_theorem (st : AgentSt) (input : String) (outs : Nat → String)
    (tres : Nat → Except String String) (fuel : Nat) (a : String) (st' : AgentSt)
    (hs : st.hasStore = true)
    (h : runAgent st input outs tres fuel = some (a, st')) :
    st'.log = st.log ++ [("user", input), ("assistant", a)] ∨
      (st'.log = st.log ++ [("user", input)] ∧ a = emptyRespMsg) := by
  unfold runAgent at h
  have hp := runPrologue_spec st input
  have hps : (runPrologue st input).hasStore = true := by
    rw [hp.2.2.2.2]; exact hs
  have hlog : (runPrologue st input).log = st.log ++ [("user", input)] := by
    rw [hp.1, hs]; simp
  rcases runLoop_log outs tres fuel 0 (runPrologue st input) a st' hps h with h' | ⟨h', ha⟩
  · left
    rw [h', hlog]
    simp
  · right
    exact ⟨h'.trans hlog, ha⟩

/-- The model output of a one-iteration run that answers immediately. -/
def finalRaw : String := "\x7b\"final\":\"ok\"\x7d"

/-- Witness: a single-iteration run that answers `ok` leaves the log
grown by exactly the user row and the assistant row. -/
theorem C5_witness :
    st0.hasStore = true ∧
    runAgent st0 "hi" (fun _ => finalRaw) (fun _ => Except.ok "") 1 =
      some ("ok", emitFinal (runPrologue st0 "hi") "ok") ∧
    ((emitFinal (runPrologue st0 "hi") "ok").log =
        st0.log ++ [("user", "hi"), ("assistant", "ok")] ∨
      ((emitFinal (runPrologue st0 "hi") "ok").log = st0.log ++ [("user", "hi")] ∧
        "ok" = emptyRespMsg)) :=
  ⟨rfl, rfl,
    C5_theorem st0 "hi" (fun _ => finalRaw) (fun _ => Except.ok "") 1 "ok"
      (emitFinal (runPrologue st0 "hi") "ok") rfl rfl⟩

/-! ## C10 -/

/-- C10: `Run` clears the cached `lastUserImages` at the start of the
turn and no loop iteration ever writes the field, so a tool invoked in a
text-only turn observes no images from an earlier vision turn;
`RunVision` caches exactly the supplied list before its loop begins. -/
theorem C10_theorem (st : AgentSt) (input : String) (imgs : List String)
    (outs : Nat → String) (tres : Nat → Except String String) (fuel : Nat) :
    (runPrologue st input).lastUserImages = [] ∧
    (runVisionPrologue st input imgs).lastUserImages = imgs ∧
    (∀ (s s' : AgentSt) (raw : String) (tr : Except String String),
      loopStep s raw tr = StepOut.next s' → s'.lastUserImages = s.lastUserImages) ∧
    (∀ (s s' : AgentSt) (raw a : String) (tr : Except String String),
      loopStep s raw tr = StepOut.done a s' → s'.lastUserImages = s.lastUserImages) ∧
    (∀ (a : String) (st' : AgentSt),
      runAgent st input outs tres fuel = some (a, st') → st'.lastUserImages = []) ∧
    (∀ (a : String) (st' : AgentSt),
      runVisionAgent st input imgs outs tres fuel = some (a, st') →
        st'.lastUserImages = imgs) := by
  refine ⟨(runPrologue_spec st input).2.2.1, (runVisionPrologue_spec st input imgs).2.2.1,
    ?_, ?_, ?_, ?_⟩
  · intro s s' raw tr hstep
    rcases loopStep_cases s raw tr with ⟨-, s₂, hstep₂, -, himg, -, -⟩ | ⟨-, hd | ⟨a', hd⟩⟩
    · rw [hstep₂] at hstep
      injection hstep with h1
      subst h1
      exact himg
    · rw [hd] at hstep; cases hstep
    · rw [hd] at hstep; cases hstep
  · intro s s' raw a tr hstep
    rcases loopStep_done_cases s raw tr a s' hstep with ⟨rfl, -⟩ | rfl
    · rfl
    · exact (emitFinal_spec s a).2.1
  · intro a st' h
    have := runLoop_images outs tres fuel 0 (runPrologue st input) a st' h
    rw [this, (runPrologue_spec st input).2.2.1]
  · intro a st' h
    have := runLoop_images outs tres fuel 0 (runVisionPrologue st input imgs) a st' h
    rw [this, (runVisionPrologue_spec st input imgs).2.2.1]

/-- Witness for C10 at a concrete state and image list. -/
theorem C10_witness :
    (runPrologue st0 "hello").lastUserImages = [] ∧
    (runVisionPrologue st0 "hello" ["imgdata"]).lastUserImages = ["imgdata"] :=
  ⟨(C10_theorem st0 "hello" ["imgdata"] (fun _ => "") (fun _ => Except.ok "") 1).1,
   (C10_theorem st0 "hello" ["imgdata"] (fun _ => "") (fun _ => Except.ok "") 1).2.1⟩

/-! ## C2 -/

/-- A one-shot job as persisted: never fired, absolute instant. -/
def oneShotJob : ScheduledTask :=
  ⟨1, "one-shot", "2000-01-01T00:00:00Z", "ping", "main", "", none⟩

/-- A store holding only that job. -/
def schedStore1 : SchedStore := ⟨[oneShotJob]⟩

/-- C2, as stated, fails when the dispatch sink errors: `executeTask`
returns early, so the one-shot row is still present and `last_fired` is
still NULL. -/
theorem C2_counterexample :
    executeTask schedStore1 oneShotJob (some "llm transport error") 5 = schedStore1 ∧
    oneShotJob ∈ (executeTask schedStore1 oneShotJob (some "llm transport error") 5).tasks ∧
    oneShotJob.type = "one-shot" ∧ oneShotJob.lastRun = none :=
  ⟨rfl, by decide, rfl, rfl⟩

/-- C2 amended: after a one-shot fire, `last_fired` is stamped and the
row deleted only when the dispatch call returns without error, in that
order; when dispatch errors, the store is left entirely untouched. -/
theorem C2_theorem (s : SchedStore) (task : ScheduledTask) (now : Int)
    (h : task.type = "one-shot") :
    (∀ e, executeTask s task (some e) now = s) ∧
    executeTask s task none now = deleteTask (updateTaskLastRun s task.id now) task.id ∧
    (∀ t ∈ (executeTask s task none now).tasks, t.id ≠ task.id) := by
  refine ⟨fun e => rfl, ?_, ?_⟩
  · unfold executeTask
    rw [if_pos h]
  · intro t ht
    unfold executeTask at ht
    rw [if_pos h] at ht
    unfold deleteTask at ht
    simp only [List.mem_filter, decide_eq_true_eq] at ht
    exact ht.2

/-- Witness for C2 on the concrete one-shot job: successful dispatch
stamps `last_run` and removes the row. -/
theorem C2_witness :
    oneShotJob.type = "one-shot" ∧
    executeTask schedStore1 oneShotJob none 5 =
      deleteTask (updateTaskLastRun schedStore1 oneShotJob.id 5) oneShotJob.id ∧
    (executeTask schedStore1 oneShotJob none 5).tasks = [] :=
  ⟨rfl, (C2_theorem schedStore1 oneShotJob 5 rfl).2.1, by decide⟩

/-! ## C3 -/

/-- A persisted recurring job. -/
def recurJob : ScheduledTask :=
  ⟨1, "recurring", "0 0 * * * *", "tick", "main", "", none⟩

/-- A job added later through `AddTask`. -/
def newJob : ScheduledTask :=
  ⟨2, "one-shot", "2099-01-01T00:00:00Z", "later", "main", "", none⟩

/-- A store holding the recurring job. -/
def schedStore2 : SchedStore := ⟨[recurJob]⟩

/-- C3 (the deduplicating reload demanded by the spec) fails on the
code: `Start` registers the recurring job once, and the reload performed
by `AddTask` hands it to `cron.AddFunc` a second time without
deregistering the first handler, so at the next matching instant the
cron engine fires the job twice. -/
theorem C3_theorem :
    firesAt (fun e => e == "0 0 * * * *")
      (addTaskRegs (fun _ => true) (startSchedulerRegs (fun _ => true) schedStore2)
        schedStore2 newJob).1 1 = 2 ∧
    (2 : Nat) ≠ 1 := by
  constructor
  · rfl
  · decide

/-! ## C6 -/

/-- Every operation, as the code issues it, preserves the row invariant. -/
theorem applyOp_inv (tbl : SubAgentsTable) (op : SubAgentOp) (hop : opOk op)
    (h : ∀ r ∈ tbl, rowInv r) : ∀ r ∈ applyOp tbl op, rowInv r := by
  cases op with
  | save id prompt model personality =>
    intro r hr
    simp only [applyOp] at hr
    unfold saveSubAgent at hr
    split at hr
    · exact h r hr
    · rcases List.mem_append.mp hr with hr | hr
      · exact h r hr
      · rcases List.mem_singleton.mp hr with rfl
        simp [rowInv]
  | progress id p =>
    intro r hr
    simp only [applyOp] at hr
    unfold updateSubAgentProgress at hr
    obtain ⟨r₀, hr₀, rfl⟩ := List.mem_map.mp hr
    have := h r₀ hr₀
    split <;> simpa [rowInv] using this
  | finish id status result now =>
    intro r hr
    simp only [applyOp] at hr
    unfold updateSubAgent at hr
    obtain ⟨r₀, hr₀, rfl⟩ := List.mem_map.mp hr
    have := h r₀ hr₀
    split
    · rcases hop with hst | hst <;> simp [rowInv, hst]
    · simpa [rowInv] using this

/-- Every operation, as the code issues it, keeps a terminal row
terminal (same id, status still `completed` or `failed`). -/
theorem applyOp_terminal (tbl : SubAgentsTable) (op : SubAgentOp) (hop : opOk op)
    (r : TaskRunRow) (hr : r ∈ tbl) (ht : terminalRow r) :
    ∃ r' ∈ applyOp tbl op, r'.id = r.id ∧ terminalRow r' := by
  cases op with
  | save id prompt model personality =>
    refine ⟨r, ?_, rfl, ht⟩
    simp only [applyOp]
    unfold saveSubAgent
    split
    · exact hr
    · exact List.mem_append_left _ hr
  | progress id p =>
    have hmem : (if r.id = id then { r with progress := p } else r) ∈
        tbl.map (fun r₀ => if r₀.id = id then { r₀ with progress := p } else r₀) :=
      List.mem_map_of_mem _ hr
    simp only [applyOp]
    unfold updateSubAgentProgress
    by_cases hid : r.id = id
    · rw [if_pos hid] at hmem
      exact ⟨_, hmem, rfl, ht⟩
    · rw [if_neg hid] at hmem
      exact ⟨r, hmem, rfl, ht⟩
  | finish id status result now =>
    have hop' : status = "completed" ∨ status = "failed" := hop
    have hmem : (if r.id = id then { r with status := status, result := result, progress := 100, finishedAt := some now } else r) ∈
        tbl.map (fun r₀ => if r₀.id = id then { r₀ with status := status, result := result, progress := 100, finishedAt := some now } else r₀) :=
      List.mem_map_of_mem _ hr
    simp only [applyOp]
    unfold updateSubAgent
    by_cases hid : r.id = id
    · rw [if_pos hid] at hmem
      exact ⟨_, hmem, rfl, hop'⟩
    · rw [if_neg hid] at hmem
      exact ⟨r, hmem, rfl, ht⟩

/-- C6: under every sequence of `SaveSubAgent` / `UpdateSubAgentProgress`
/ `UpdateSubAgent` operations as the code issues them (inserts with
status `running`, terminal updates with `completed` or `failed`), every
row satisfies "`finished_at` set iff status ≠ `running`", and a row that
reached `completed` or `failed` never returns to `running`; the terminal
update writes status, result, `progress = 100` and `finished_at` in one
statement. -/
theorem C6_theorem (ops : List SubAgentOp) (tbl : SubAgentsTable)
    (hok : ∀ op ∈ ops, opOk op) (hinv : ∀ r ∈ tbl, rowInv r) :
    (∀ r ∈ applyOps tbl ops, rowInv r) ∧
    (∀ r ∈ tbl, terminalRow r →
      ∃ r' ∈ applyOps tbl ops, r'.id = r.id ∧ terminalRow r') := by
  induction ops generalizing tbl with
  | nil => exact ⟨hinv, fun r hr ht => ⟨r, hr, rfl, ht⟩⟩
  | cons op rest ih =>
    have hop : opOk op := hok op (List.mem_cons_self op rest)
    have hrest : ∀ o ∈ rest, opOk o := fun o ho => hok o (List.mem_cons_of_mem op ho)
    have step := ih (applyOp tbl op) hrest (applyOp_inv tbl op hop hinv)
    refine ⟨step.1, fun r hr ht => ?_⟩
    obtain ⟨r', hr', hid', ht'⟩ := applyOp_terminal tbl op hop r hr ht
    obtain ⟨r'', hr'', hid'', ht''⟩ := step.2 r' hr' ht'
    exact ⟨r'', hr'', hid''.trans hid', ht''⟩

/-- A concrete lifecycle: spawn, progress update, terminal completion. -/
def c6ops : List SubAgentOp :=
  [SubAgentOp.save "a1b2c3d4" "write hello world" "" "",
   SubAgentOp.progress "a1b2c3d4" 50,
   SubAgentOp.finish "a1b2c3d4" "completed" "done" 7]

/-- Witness for C6 on the concrete lifecycle starting from an empty
table. -/
theorem C6_witness :
    (∀ op ∈ c6ops, opOk op) ∧ (∀ r ∈ applyOps [] c6ops, rowInv r) :=
  ⟨by decide, (C6_theorem c6ops [] (by decide) (by simp)).1⟩

/-! ## C7 -/

/-- C7: a declaration other than `""` and `"*"` installs on the
sub-agent exactly the declared (space-trimmed) names that exist in the
manager's full tool set, dropping unknown names silently; `""` and `"*"`
both inherit the full set. -/
theorem C7_theorem (declared : String) (available : List String) :
    ((declared = "" ∨ declared = "*") → filterTools declared available = available) ∧
    (declared ≠ "" → declared ≠ "*" →
      ∀ x, x ∈ filterTools declared available ↔
        x ∈ (declared.splitOn ",").map goTrimSpace ∧ x ∈ available) := by
  constructor
  · rintro (h | h) <;> simp [filterTools, h]
  · intro h1 h2 x
    unfold filterTools
    rw [if_pos ⟨h1, h2⟩]
    simp only [List.mem_filter, decide_eq_true_eq]

/-- Witness for C7: `"browser, shell ,missing"` against the full set
`["shell", "browser", "email"]` keeps `shell` (declared and known), and
the wildcard inherits the full set. -/
theorem C7_witness :
    (("browser, shell ,missing" : String) ≠ "" ∧
      ("browser, shell ,missing" : String) ≠ "*") ∧
    ("shell" ∈ filterTools "browser, shell ,missing" ["shell", "browser", "email"] ↔
      "shell" ∈ ("browser, shell ,missing".splitOn ",").map goTrimSpace ∧
        "shell" ∈ (["shell", "browser", "email"] : List String)) ∧
    filterTools "*" ["shell", "browser", "email"] = ["shell", "browser", "email"] :=
  ⟨⟨by decide, by decide⟩,
   ( C7_theorem "browser, shell ,missing" ["shell", "browser", "email"]).2
     (by decide) (by decide) "shell",
   ( C7_theorem "*" ["shell", "browser", "email"]).1 (Or.inr rfl)⟩

/-! ## C8 -/

/-- C8: an unknown id answers 404 and dispatches nothing; a known id
answers 200 and dispatches the template with every payload placeholder
replaced by the body — to the main loop when the target is `main`, to
`SpawnNamed` on the target name otherwise. -/
theorem C8_theorem (lookup : String → Option Webhook) (id body : String) (hid : id ≠ "") :
    (lookup id = none → handleWebhook lookup id body = ⟨404, none⟩) ∧
    (∀ hook, lookup id = some hook →
      handleWebhook lookup id body =
        ⟨200, some (if hook.targetAgent = "main" then
            Dispatch.mainRun (goReplaceAll hook.promptTemplate payloadToken body)
          else
            Dispatch.spawnNamed hook.targetAgent
              (goReplaceAll hook.promptTemplate payloadToken body))⟩) := by
  constructor
  · intro h
    unfold handleWebhook
    rw [if_neg hid, h]
  · intro hook h
    unfold handleWebhook
    rw [if_neg hid, h]
    by_cases ht : hook.targetAgent = "main" <;> simp [ht]

/-- A stored webhook whose template embeds the payload placeholder. -/
def demoHook : Webhook := ⟨"abc", "demo", "main", "echo \x7b\x7bpayload\x7d\x7d please"⟩

/-- A `GetWebhook` model knowing only that webhook. -/
def demoLookup : String → Option Webhook :=
  fun i => if i = "abc" then some demoHook else none

/-- Witness for C8: the known id substitutes and dispatches to the main
loop with 200; an unknown id gets 404 without dispatch. -/
theorem C8_witness :
    ("abc" : String) ≠ "" ∧
    handleWebhook demoLookup "abc" "hello" =
      ⟨200, some (Dispatch.mainRun "echo hello please")⟩ ∧
    handleWebhook demoLookup "zzz" "hello" = ⟨404, none⟩ := by
  refine ⟨by decide, ?_, ?_⟩
  · exact ((C8_theorem demoLookup "abc" "hello" (by decide)).2 demoHook rfl).trans (by rfl)
  · exact (C8_theorem demoLookup "zzz" "hello" (by decide)).1 rfl

/-! ## C9 -/

/-- Joining a one-element transcript is that element. -/
theorem intercalate_singleton (s a : String) : String.intercalate s [a] = a := by
  unfold String.intercalate String.intercalate.go
  simp

/-- The per-turn progress writes keep every row present with its id. -/
theorem foldProgress_mem (id : String) (f : Nat → Int) :
    ∀ (ks : List Nat) (tbl : SubAgentsTable) (r : TaskRunRow), r ∈ tbl →
      ∃ r' ∈ ks.foldl (fun acc k => updateSubAgentProgress acc id (f k)) tbl,
        r'.id = r.id := by
  intro ks
  induction ks with
  | nil => intro tbl r hr; exact ⟨r, hr, rfl⟩
  | cons k rest ih =>
    intro tbl r hr
    have hmem : (if r.id = id then { r with progress := f k } else r) ∈
        updateSubAgentProgress tbl id (f k) := by
      unfold updateSubAgentProgress
      exact List.mem_map_of_mem _ hr
    have hid : (if r.id = id then { r with progress := f k } else r).id = r.id := by
      split <;> rfl
    obtain ⟨r', hr', hid'⟩ := ih (updateSubAgentProgress tbl id (f k)) _ hmem
    exact ⟨r', hr', hid'.trans hid⟩

/-- The terminal write leaves a row carrying the id with exactly the
terminal fields. -/
theorem updateSubAgent_mem (tbl : SubAgentsTable) (id status result : String) (now : Int)
    (r : TaskRunRow) (hr : r ∈ tbl) (hid : r.id = id) :
    ∃ r' ∈ updateSubAgent tbl id status result now,
      r'.id = id ∧ r'.status = status ∧ r'.result = result ∧
      r'.progress = 100 ∧ r'.finishedAt = some now := by
  have hmem : (if r.id = id then { r with status := status, result := result, progress := 100, finishedAt := some now } else r) ∈ updateSubAgent tbl id status result now := by
    unfold updateSubAgent
    exact List.mem_map_of_mem _ hr
  rw [if_pos hid] at hmem
  exact ⟨_, hmem, hid, rfl, rfl, rfl, rfl⟩

/-- C9: a started council session (non-empty member set) always ends
with the terminal write setting status `completed` and result equal to
the joined transcript; erroring or timed-out member turns contribute
nothing but do not abort, and if every turn fails the transcript is only
the problem line. -/
theorem C9_theorem (tbl : SubAgentsTable) (id : String) (members : List String)
    (problem : String) (turns : Nat → Option String) (now : Int) (r : TaskRunRow)
    (hm : members ≠ []) (hr : r ∈ tbl) (hid : r.id = id) :
    (∃ r' ∈ executeCouncilSession tbl id members problem turns now,
      r'.id = id ∧ r'.status = "completed" ∧
      r'.result = councilResult members problem turns ∧
      r'.progress = 100 ∧ r'.finishedAt = some now) ∧
    ((∀ k, turns k = none) →
      councilResult members problem turns = "Council Problem: " ++ problem) := by
  constructor
  · unfold executeCouncilSession
    obtain ⟨r₁, hr₁, hid₁⟩ := foldProgress_mem id
      (fun k => councilProgress (k / members.length + 1) members.length)
      (List.range (councilOrder members).length) tbl r hr
    exact updateSubAgent_mem _ id "completed" (councilResult members problem turns) now
      r₁ hr₁ (hid₁.trans hid)
  · intro h
    unfold councilResult councilTranscript
    rw [show councilLines members turns = [] by simp [councilLines, h]]
    exact intercalate_singleton _ _

/-- The session TaskRun row as inserted by `RunCouncilSession`. -/
def councilRow : TaskRunRow :=
  ⟨"c1d2e3f4", "Council Session", "running", 0, "", "", "", none⟩

/-- Witness for C9: a two-member council in which every turn fails still
completes, with the bare problem line as its result. -/
theorem C9_witness :
    (["a", "b"] : List String) ≠ [] ∧ councilRow ∈ [councilRow] ∧
    (∃ r' ∈ executeCouncilSession [councilRow] "c1d2e3f4" ["a", "b"] "what color?"
        (fun _ => none) 3,
      r'.id = "c1d2e3f4" ∧ r'.status = "completed" ∧
      r'.result = councilResult ["a", "b"] "what color?" (fun _ => none) ∧
      r'.progress = 100 ∧ r'.finishedAt = some 3) ∧
    councilResult ["a", "b"] "what color?" (fun _ => none) =
      "Council Problem: what color?" :=
  ⟨by decide, List.mem_singleton.mpr rfl,
   (C9_theorem [councilRow] "c1d2e3f4" ["a", "b"] "what color?" (fun _ => none) 3
      councilRow (by decide) (List.mem_singleton.mpr rfl) rfl).1,
   (C9_theorem [councilRow] "c1d2e3f4" ["a", "b"] "what color?" (fun _ => none) 3
      councilRow (by decide) (List.mem_singleton.mpr rfl) rfl).2 (fun k => rfl)⟩

end Idony
